import Mathlib

/-!
Shallow embedding of the hybrid publication recommender of this repository.

Sources embedded here:
- frontend/storage/postgres_store.py  (PostgresStore: embeds table)
- frontend/storage/neo4j_store.py     (Neo4jStore: graph state, GDS calls)
- frontend/tasks.py                   (community partition rebuild)
- frontend/api/interface.py           (cosine_sim and the recommend route)

Modelling conventions:
- numpy float vectors are modelled as lists of real numbers; a float
  computation that produces a non-finite value (NaN or infinity, e.g. a
  division whose denominator is zero) is modelled as `Option.none`.
- Database tables are lists of rows; SQL and Cypher queries become list
  filters, sorts and takes translated clause by clause from the query text.
- Python exceptions become `Except` errors; each error constructor carries a
  doc comment naming the concrete Python failure it models.
-/

set_option maxHeartbeats 1000000

namespace PostgresStore

/-- An embedding vector as stored in the `embeds` table (FLOAT8 array). -/
abbrev Vec := List ℝ

/-- The array dimension declared in `create_embed_table` (`embed FLOAT8[512]`).
PostgreSQL records but does not enforce declared array dimensions, and
`insert_pkeys_embeds` performs no length check of its own. -/
def declared_embed_dim : ℕ := 512

/-- Models `PostgresStore.insert_pkeys_embeds` (postgres_store.py lines 46-65):
`executemany` of `INSERT INTO embeds VALUES (%s, %s) ON CONFLICT (pkey) DO
NOTHING` over `zip(pkeys, embeds)`. Each pair is inserted in order; a pair
whose key already exists in the table (including keys inserted earlier in the
same batch) is skipped, leaving the existing row unchanged. -/
def insert_pkeys_embeds (table : List (String × Vec)) (pkeys : List String)
    (embeds : List Vec) : List (String × Vec) :=
  (List.zip pkeys embeds).foldl
    (fun t kv => if t.any (fun r => r.1 == kv.1) then t else t ++ [kv]) table

/-- Models the scalar branch of `PostgresStore.retrieve_embeds`
(postgres_store.py lines 81-90): `SELECT pkey, embed FROM embeds WHERE pkey =
%s ORDER BY pkey`. All rows with the given key, in table order (they all share
one key, so the ORDER BY is vacuous). -/
def retrieve_embeds_single (table : List (String × Vec)) (pkey : String) :
    List (String × Vec) :=
  table.filter (fun r => r.1 == pkey)

/-- Byte-wise lexicographic strictly-less on key character data, modelling
the text ordering used by `ORDER BY pkey` (C collation). Written as a
Bool-valued structural recursion so that concrete queries evaluate. -/
def keyLtB : List Char → List Char → Bool
  | [], [] => false
  | [], _ :: _ => true
  | _ :: _, [] => false
  | a :: as, b :: bs =>
    if a < b then true else if b < a then false else keyLtB as bs

/-- Stable ascending sort of rows by key, modelling `ORDER BY pkey`. -/
def sortByPkey (rows : List (String × Vec)) : List (String × Vec) :=
  List.insertionSort (fun a b => keyLtB b.1.data a.1.data = false) rows

/-- Models the list branch of `PostgresStore.retrieve_embeds`
(postgres_store.py lines 71-80 and 92-95): `SELECT pkey, embed FROM embeds
WHERE pkey IN %s ORDER BY pkey`. With an empty key list psycopg2 renders
`IN ()`, PostgreSQL raises a syntax error, the handler catches it and returns
the empty list; that caught-error branch is the first case below. -/
def retrieve_embeds_list (table : List (String × Vec)) (pkeys : List String) :
    List (String × Vec) :=
  if pkeys = [] then []
  else sortByPkey (table.filter (fun r => pkeys.contains r.1))

end PostgresStore

namespace PostgresStore

/-- Reading a single-element key list filters the table by that key and sorts
the (at most one distinct) key, which is the same as filtering alone after the
vacuous singleton sort. -/
theorem retrieve_embeds_list_singleton (T : List (String × Vec)) (k : String) :
    retrieve_embeds_list T [k] = sortByPkey (T.filter (fun r => r.1 == k)) := by
  rw [retrieve_embeds_list, if_neg (by simp)]
  congr 1
  apply List.filter_congr
  intro r _
  rw [List.contains_cons]
  simp

/-- Inserting one pair whose key is absent appends the row. -/
theorem insert_single_absent (T : List (String × Vec)) (k : String) (v : Vec)
    (h : T.any (fun r => r.1 == k) = false) :
    insert_pkeys_embeds T [k] [v] = T ++ [(k, v)] := by
  show (if T.any (fun r => r.1 == k) = true then T else T ++ [(k, v)]) = T ++ [(k, v)]
  rw [h]
  simp

/-- Inserting one pair whose key is already present leaves the table
unchanged (the ON CONFLICT DO NOTHING branch). -/
theorem insert_single_present (T : List (String × Vec)) (k : String) (v : Vec)
    (h : T.any (fun r => r.1 == k) = true) :
    insert_pkeys_embeds T [k] [v] = T := by
  show (if T.any (fun r => r.1 == k) = true then T else T ++ [(k, v)]) = T
  rw [h]
  simp

/-- Sorting a singleton row list is the identity. -/
theorem sortByPkey_singleton (r : String × Vec) : sortByPkey [r] = [r] := rfl

end PostgresStore

/-- C4, counterexample: storing `[1]` under key `k`, then calling
`insert_pkeys_embeds` again with `[2]` for the same key and reading the key
back returns the OLD vector `[1]`, not `[2]`: the `ON CONFLICT (pkey) DO
NOTHING` clause skips the conflicting row instead of replacing it. -/
theorem upsert_does_not_replace_counterexample :
    PostgresStore.retrieve_embeds_list
        (PostgresStore.insert_pkeys_embeds [("k", [(1 : ℝ)])] ["k"] [[(2 : ℝ)]]) ["k"]
      = [("k", [(1 : ℝ)])]
    ∧ [("k", [(1 : ℝ)])] ≠ [("k", [(2 : ℝ)])] := by
  refine ⟨rfl, ?_⟩
  intro h
  norm_num at h

/-- C4, amended: `insert_pkeys_embeds` is insert-if-absent, not replace. If
key `k` is absent from the table, inserting `v` and reading `k` back returns
exactly `v`; if the table already holds a row `(k, w)`, the insert is a no-op
and reading `k` back returns the prior vector `w`. -/
theorem insert_if_absent_roundtrip (table : List (String × PostgresStore.Vec))
    (k : String) (v w : PostgresStore.Vec) :
    ((∀ r ∈ table, r.1 ≠ k) →
      PostgresStore.retrieve_embeds_list
        (PostgresStore.insert_pkeys_embeds table [k] [v]) [k] = [(k, v)])
    ∧ (table.filter (fun r => r.1 == k) = [(k, w)] →
      PostgresStore.retrieve_embeds_list
        (PostgresStore.insert_pkeys_embeds table [k] [v]) [k] = [(k, w)]) := by
  constructor
  · intro habs
    have hany : table.any (fun r => r.1 == k) = false := by
      simp only [List.any_eq_false]
      intro r hr
      simpa using habs r hr
    have hfilter : table.filter (fun r => r.1 == k) = [] := by
      rw [List.filter_eq_nil_iff]
      intro r hr
      simpa using habs r hr
    rw [PostgresStore.insert_single_absent table k v hany,
      PostgresStore.retrieve_embeds_list_singleton, List.filter_append, hfilter]
    simp [PostgresStore.sortByPkey_singleton]
  · intro hrow
    have hmem : (k, w) ∈ table.filter (fun r => r.1 == k) := by
      rw [hrow]; exact List.mem_cons_self _ _
    have hmem2 := List.mem_filter.mp hmem
    have hany : table.any (fun r => r.1 == k) = true :=
      List.any_eq_true.mpr ⟨(k, w), hmem2.1, hmem2.2⟩
    rw [PostgresStore.insert_single_present table k v hany,
      PostgresStore.retrieve_embeds_list_singleton, hrow,
      PostgresStore.sortByPkey_singleton]

/-- C4 witness: concrete instances of both branches of
`insert_if_absent_roundtrip`. -/
theorem insert_if_absent_roundtrip_witness :
    (PostgresStore.retrieve_embeds_list
        (PostgresStore.insert_pkeys_embeds [] ["a"] [[(1 : ℝ)]]) ["a"]
      = [("a", [(1 : ℝ)])])
    ∧ (PostgresStore.retrieve_embeds_list
        (PostgresStore.insert_pkeys_embeds [("b", [(3 : ℝ)])] ["b"] [[(4 : ℝ)]]) ["b"]
      = [("b", [(3 : ℝ)])]) :=
  ⟨(insert_if_absent_roundtrip [] "a" [(1 : ℝ)] [(1 : ℝ)]).1 (by simp),
   (insert_if_absent_roundtrip [("b", [(3 : ℝ)])] "b" [(4 : ℝ)] [(3 : ℝ)]).2 (by rfl)⟩

namespace Interface

/-- Dot product of two equal-length vectors, modelling `np.dot(x, y)` on 1-d
float arrays. -/
def dot (x y : List ℝ) : ℝ := (List.zipWith (fun a b => a * b) x y).sum

/-- Euclidean norm, modelling `np.linalg.norm(x)`. -/
noncomputable def npNorm (x : List ℝ) : ℝ := Real.sqrt (dot x x)

/-- Models `cosine_sim` (interface.py lines 69-70):
`np.dot(x, y) / (np.linalg.norm(x) * np.linalg.norm(y))`. The division is
unguarded; when the denominator is zero the float result is non-finite (NaN
or infinity), modelled as `none`; otherwise the exact real quotient is
returned. -/
noncomputable def cosine_sim (x y : List ℝ) : Option ℝ :=
  if npNorm x * npNorm y = 0 then none
  else some (dot x y / (npNorm x * npNorm y))

/-- The dot product of a vector with itself is nonnegative. -/
theorem dot_self_nonneg (v : List ℝ) : 0 ≤ dot v v := by
  induction v with
  | nil => simp [dot]
  | cons a t ih =>
    have hd : dot (a :: t) (a :: t) = a * a + dot t t := rfl
    have ha := mul_self_nonneg a
    rw [hd]
    linarith

/-- The dot product of a vector having a nonzero entry with itself is
positive. -/
theorem dot_self_pos (v : List ℝ) (a : ℝ) (hmem : a ∈ v) (ha : a ≠ 0) :
    0 < dot v v := by
  induction v with
  | nil => simp at hmem
  | cons b t ih =>
    have hd : dot (b :: t) (b :: t) = b * b + dot t t := rfl
    rw [hd]
    rcases List.mem_cons.mp hmem with h | h
    · have h1 : 0 < b * b := by
        subst h
        exact mul_self_pos.mpr ha
      have h2 := dot_self_nonneg t
      linarith
    · have h1 := ih h
      have h2 := mul_self_nonneg b
      linarith

end Interface

/-- C2, counterexample: on the zero vector the unguarded division in
`cosine_sim` divides zero by zero, so the result is the non-finite float NaN
(modelled `none`), not the value 0 the claim promises; the code has no
zero-norm guard. -/
theorem cosine_sim_zero_vector_counterexample :
    Interface.cosine_sim [(0 : ℝ)] [(0 : ℝ)] = none
    ∧ Interface.cosine_sim [(0 : ℝ)] [(0 : ℝ)] ≠ some 0 := by
  have hd : Interface.dot [(0 : ℝ)] [(0 : ℝ)] = 0 := by simp [Interface.dot]
  have hn : Interface.npNorm [(0 : ℝ)] = 0 := by
    rw [Interface.npNorm, hd, Real.sqrt_zero]
  have hz : Interface.npNorm [(0 : ℝ)] * Interface.npNorm [(0 : ℝ)] = 0 := by
    rw [hn]; ring
  constructor
  · rw [Interface.cosine_sim, if_pos hz]
  · rw [Interface.cosine_sim, if_pos hz]
    simp

/-- C2, amended: `cosine_sim x y` equals `dot x y / (npNorm x * npNorm y)`
whenever the denominator is nonzero, and `cosine_sim v v = 1` for every
vector with a nonzero entry; but when either norm is zero the unguarded
division yields a non-finite float (modelled `none`), not 0. -/
theorem cosine_sim_spec :
    (∀ x y : List ℝ, Interface.npNorm x * Interface.npNorm y ≠ 0 →
      Interface.cosine_sim x y
        = some (Interface.dot x y / (Interface.npNorm x * Interface.npNorm y)))
    ∧ (∀ v : List ℝ, (∃ a ∈ v, a ≠ 0) → Interface.cosine_sim v v = some 1)
    ∧ (∀ x y : List ℝ, Interface.npNorm x * Interface.npNorm y = 0 →
      Interface.cosine_sim x y = none) := by
  refine ⟨?_, ?_, ?_⟩
  · intro x y h
    rw [Interface.cosine_sim, if_neg h]
  · rintro v ⟨a, hmem, ha⟩
    have hpos := Interface.dot_self_pos v a hmem ha
    have hms : Interface.npNorm v * Interface.npNorm v = Interface.dot v v :=
      Real.mul_self_sqrt (Interface.dot_self_nonneg v)
    rw [Interface.cosine_sim, if_neg (by rw [hms]; exact ne_of_gt hpos), hms,
      div_self (ne_of_gt hpos)]
  · intro x y h
    rw [Interface.cosine_sim, if_pos h]

/-- C2 witness: the three branches of `cosine_sim_spec` at concrete vectors:
the quotient form at x = [1], y = [2], self-similarity 1 at v = [0, 3], and
the non-finite zero-norm case at the empty vector. -/
theorem cosine_sim_spec_witness :
    Interface.cosine_sim [(1 : ℝ)] [(2 : ℝ)]
      = some (Interface.dot [(1 : ℝ)] [(2 : ℝ)]
          / (Interface.npNorm [(1 : ℝ)] * Interface.npNorm [(2 : ℝ)]))
    ∧ Interface.cosine_sim [(0 : ℝ), 3] [(0 : ℝ), 3] = some 1
    ∧ Interface.cosine_sim ([] : List ℝ) ([] : List ℝ) = none := by
  have h1 : Interface.npNorm [(1 : ℝ)] = 1 := by
    rw [Interface.npNorm,
      show Interface.dot [(1 : ℝ)] [(1 : ℝ)] = 1 by norm_num [Interface.dot],
      Real.sqrt_one]
  have h2 : Interface.npNorm [(2 : ℝ)] = 2 := by
    rw [Interface.npNorm,
      show Interface.dot [(2 : ℝ)] [(2 : ℝ)] = 4 by norm_num [Interface.dot],
      show (4 : ℝ) = 2 ^ 2 by norm_num, Real.sqrt_sq (by norm_num)]
  have h0 : Interface.npNorm ([] : List ℝ) = 0 := by
    rw [Interface.npNorm, show Interface.dot ([] : List ℝ) [] = 0 from rfl,
      Real.sqrt_zero]
  exact ⟨cosine_sim_spec.1 _ _ (by rw [h1, h2]; norm_num),
    cosine_sim_spec.2.1 _ ⟨3, by simp, by norm_num⟩,
    cosine_sim_spec.2.2 _ _ (by rw [h0]; ring)⟩

namespace Neo4jStore

/-- Node labels of the bibliographic graph. -/
inductive Label where
  | Publication
  | Author
  | Stream
  deriving DecidableEq

/-- A graph node with its key and the `community_id` property (absent until
Louvain has written it). -/
structure Node where
  key : String
  label : Label
  community_id : Option ℤ
  deriving DecidableEq

/-- A persisted SIMILAR relationship with its `score` property, as written by
`gds.nodeSimilarity.write`. -/
structure SimEdge where
  src : String
  dst : String
  score : ℚ
  deriving DecidableEq

/-- The observable Neo4j database state for this development: the stored
nodes, the stored SIMILAR relationships, and the GDS catalog of projected
in-memory analysis graphs. The AUTHORED_BY / CITED_BY / GROUPED_BY
relationships only feed the external GDS algorithms, which are abstracted as
function parameters below, so they are not tracked individually. -/
structure GraphState where
  nodes : List Node
  similar : List SimEdge
  projected : List String
  deriving DecidableEq

/-- Errors of `generate_candidates`; each constructor models a concrete
Python-level failure, named after the abstract error taxonomy of the spec. -/
inductive GraphError where
  /-- Models the failure of `result.single()[0]` when
  `MATCH (p:Publication {key: $pkey})` returns no record. -/
  | NotFound
  /-- Models the Cypher failure when `community_id` is null: the query text
  interpolates the Python literal `None`, which is not valid Cypher, so the
  similarity-graph projection call raises. -/
  | NoCommunity
  deriving DecidableEq

/-- Models `Neo4jStore.drop_graphs` (neo4j_store.py lines 151-159): every
projected graph in the GDS catalog is dropped. Stored SIMILAR relationships
are NOT touched: `gds.graph.drop` removes only the in-memory projection. -/
def drop_graphs (s : GraphState) : GraphState :=
  { s with projected := [] }

/-- Models `Neo4jStore.create_community_graph` (neo4j_store.py lines
161-194): project the `bib_community` graph over all nodes and
relationships, then run Louvain (`gds.louvain.write`), which writes a
`community_id` to every node of the projection. Louvain itself is external
graph analytics, abstracted as the partition parameter `part`; the returned
counts are not modelled. GDS would refuse a projection whose name is already
taken, but the only caller drops all graphs first. -/
def create_community_graph (part : String → ℤ) (s : GraphState) : GraphState :=
  { s with
    nodes := s.nodes.map (fun n => { n with community_id := some (part n.key) }),
    projected := "bib_community" :: s.projected }

/-- Models `_update_community_graph` (tasks.py lines 48-54), the partition
rebuild: drop all projected graphs, then re-project and re-run community
detection. -/
def update_community_graph (part : String → ℤ) (s : GraphState) : GraphState :=
  create_community_graph part (drop_graphs s)

/-- The per-community similarity projection name `f"sim_graph_{cid}"`. -/
def simGraphName (cid : ℤ) : String := "sim_graph_" ++ toString cid

/-- Models the lazy similarity-subgraph construction inside
`generate_candidates` (neo4j_store.py lines 206-247): if the projection
`sim_graph_{cid}` already exists in the GDS catalog, do nothing; otherwise
project the community subgraph and run `gds.nodeSimilarity.write`, which
appends SIMILAR relationships with scores to the stored graph. The
node-similarity computation is external graph analytics, abstracted as the
parameter `nodeSim`. -/
def ensure_similarity_subgraph (nodeSim : GraphState → ℤ → List SimEdge)
    (cid : ℤ) (s : GraphState) : GraphState :=
  if simGraphName cid ∈ s.projected then s
  else { s with
    projected := simGraphName cid :: s.projected,
    similar := s.similar ++ nodeSim s cid }

/-- True when a Publication node with the given key and community id exists,
modelling the node pattern `(p:Publication {key: .., community_id: ..})`. -/
def pubInCommunity (s : GraphState) (key : String) (cid : ℤ) : Bool :=
  s.nodes.any (fun n =>
    n.key == key && n.label == Label.Publication && n.community_id == some cid)

/-- Models the final query of `generate_candidates` (neo4j_store.py lines
249-260): `MATCH (p1:Publication {key: $pkey, community_id: $cid})
-[r:SIMILAR]->(p2:Publication {community_id: $cid}) RETURN p2.key AS pkey,
r.score AS node_similarity ORDER BY r.score DESC LIMIT $k`. -/
def top_k_query (s : GraphState) (pkey : String) (cid : ℤ) (k : ℕ) :
    List (String × ℚ) :=
  (List.insertionSort (fun a b => b.2 ≤ a.2)
    ((s.similar.filter (fun e =>
      e.src == pkey && pubInCommunity s e.src cid
        && pubInCommunity s e.dst cid)).map
      (fun e => (e.dst, e.score)))).take k

/-- Models the community lookup at the top of `generate_candidates`
(neo4j_store.py lines 198-203): `MATCH (p:Publication {key: $pkey}) RETURN
p.community_id` followed by `result.single()[0]`. No matching node makes the
subscript fail, modelled as `NotFound`; with several matches the 4.x driver
returns the first record. -/
def lookup_community (s : GraphState) (pkey : String) :
    Except GraphError (Option ℤ) :=
  match s.nodes.filter (fun n => n.label == Label.Publication && n.key == pkey) with
  | [] => .error .NotFound
  | n :: _ => .ok n.community_id

/-- Models `Neo4jStore.generate_candidates` (neo4j_store.py lines 196-262):
resolve the community of `pkey`, lazily build the similarity subgraph for
that community, then return the top-k SIMILAR neighbours. A null
`community_id` makes the interpolated projection query invalid Cypher,
modelled as the `NoCommunity` error. Returns the updated database state
together with the result rows. -/
def generate_candidates (nodeSim : GraphState → ℤ → List SimEdge)
    (pkey : String) (k : ℕ) (s : GraphState) :
    Except GraphError (GraphState × List (String × ℚ)) :=
  match lookup_community s pkey with
  | .error e => .error e
  | .ok none => .error .NoCommunity
  | .ok (some cid) =>
    let s1 := ensure_similarity_subgraph nodeSim cid s
    .ok (s1, top_k_query s1 pkey cid k)

/-- After `ensure_similarity_subgraph` runs, the per-community projection is
registered in the GDS catalog. -/
theorem mem_projected_ensure (nodeSim : GraphState → ℤ → List SimEdge)
    (cid : ℤ) (s : GraphState) :
    simGraphName cid ∈ (ensure_similarity_subgraph nodeSim cid s).projected := by
  rw [ensure_similarity_subgraph]
  by_cases h : simGraphName cid ∈ s.projected
  · rw [if_pos h]; exact h
  · rw [if_neg h]; exact List.mem_cons_self _ _

/-- A similarity projection name never collides with the community
projection name `bib_community` (they differ in their first character). -/
theorem simGraphName_ne_bib (cid : ℤ) : simGraphName cid ≠ "bib_community" := by
  intro h
  have h2 : ("sim_graph_" ++ toString cid).data = "bib_community".data :=
    congrArg String.data h
  rw [String.data_append] at h2
  rw [show ("sim_graph_" : String).data = 's' :: "im_graph_".data from rfl] at h2
  rw [show ("bib_community" : String).data = 'b' :: "ib_community".data from rfl] at h2
  rw [List.cons_append] at h2
  injection h2 with hc _
  exact absurd hc (by decide)

end Neo4jStore

/-- C9: the similarity-subgraph construction is lazy and idempotent: when the
projection for the community is already in the GDS catalog the call returns
the state unchanged, and running the construction twice in sequence leaves
exactly the state (hence exactly the SIMILAR edge set and scores) of running
it once. -/
theorem ensure_similarity_subgraph_idempotent
    (nodeSim : Neo4jStore.GraphState → ℤ → List Neo4jStore.SimEdge)
    (cid : ℤ) (s : Neo4jStore.GraphState) :
    Neo4jStore.ensure_similarity_subgraph nodeSim cid
        (Neo4jStore.ensure_similarity_subgraph nodeSim cid s)
      = Neo4jStore.ensure_similarity_subgraph nodeSim cid s
    ∧ (Neo4jStore.simGraphName cid ∈ s.projected →
        Neo4jStore.ensure_similarity_subgraph nodeSim cid s = s) := by
  constructor
  · conv_lhs => rw [Neo4jStore.ensure_similarity_subgraph]
    rw [if_pos (Neo4jStore.mem_projected_ensure nodeSim cid s)]
  · intro h
    rw [Neo4jStore.ensure_similarity_subgraph, if_pos h]

/-- C9 witness: on a concrete state whose catalog already holds
`sim_graph_0`, the construction for community 0 is the identity. -/
theorem ensure_similarity_subgraph_idempotent_witness :
    Neo4jStore.ensure_similarity_subgraph (fun _ _ => []) 0
        ⟨[], [], ["sim_graph_0"]⟩
      = ⟨[], [], ["sim_graph_0"]⟩ :=
  (ensure_similarity_subgraph_idempotent (fun _ _ => []) 0
    ⟨[], [], ["sim_graph_0"]⟩).2 (by
      rw [show Neo4jStore.simGraphName 0 = "sim_graph_0" from rfl]
      exact List.mem_cons_self _ _)

/-- Pre-rebuild database state for the C1 counterexample: publications A and
B in community 0, one cached SIMILAR edge A -> B with score 9/10 written by
an earlier similarity build, and both analysis projections in the catalog. -/
def s0C1 : Neo4jStore.GraphState :=
  { nodes := [⟨"A", .Publication, some 0⟩, ⟨"B", .Publication, some 0⟩],
    similar := [⟨"A", "B", 9/10⟩],
    projected := ["bib_community", "sim_graph_0"] }

/-- C1, counterexample: after the partition rebuild the cached SIMILAR edge
written under the prior partition is still stored and still reachable — the
top-k query returns it, and `generate_candidates` succeeds with it instead of
failing — even though `ensure_similarity_subgraph` has not run again (the
similarity projection is gone from the catalog, so the third conjunct shows
the build re-running and appending nothing new here). `drop_graphs` removes
only projected in-memory graphs, never the stored SIMILAR relationships, and
no NoSimilarityData failure path exists in the code. -/
theorem rebuild_keeps_similar_counterexample :
    (Neo4jStore.update_community_graph (fun _ => 0) s0C1).similar
      = [⟨"A", "B", 9/10⟩]
    ∧ Neo4jStore.top_k_query
        (Neo4jStore.update_community_graph (fun _ => 0) s0C1) "A" 0 10
      = [("B", 9/10)]
    ∧ Neo4jStore.generate_candidates (fun _ _ => []) "A" 10
        (Neo4jStore.update_community_graph (fun _ => 0) s0C1)
      = .ok
          ({ nodes := [⟨"A", .Publication, some 0⟩, ⟨"B", .Publication, some 0⟩],
             similar := [⟨"A", "B", 9/10⟩],
             projected := ["sim_graph_0", "bib_community"] },
           [("B", 9/10)]) :=
  ⟨rfl, rfl, rfl⟩

/-- C1, amended: the rebuild drops every projected analysis graph (the
catalog afterwards holds exactly the fresh `bib_community` projection, and in
particular no per-community similarity projection), but it leaves the stored
SIMILAR relationships exactly as they were. -/
theorem rebuild_drops_projections_not_similar (part : String → ℤ)
    (s : Neo4jStore.GraphState) :
    (Neo4jStore.update_community_graph part s).similar = s.similar
    ∧ (Neo4jStore.update_community_graph part s).projected = ["bib_community"]
    ∧ ∀ cid : ℤ, Neo4jStore.simGraphName cid
        ∉ (Neo4jStore.update_community_graph part s).projected := by
  refine ⟨rfl, rfl, ?_⟩
  intro cid h
  have h2 : Neo4jStore.simGraphName cid = "bib_community" := by
    simpa [Neo4jStore.update_community_graph, Neo4jStore.create_community_graph,
      Neo4jStore.drop_graphs] using h
  exact Neo4jStore.simGraphName_ne_bib cid h2

/-- C1 amended-theorem witness at a concrete partition, state and community:
the rebuilt catalog does not hold the similarity projection for community 7. -/
theorem rebuild_drops_projections_not_similar_witness :
    Neo4jStore.simGraphName 7
      ∉ (Neo4jStore.update_community_graph (fun _ => 0) s0C1).projected :=
  (rebuild_drops_projections_not_similar (fun _ => 0) s0C1).2.2 7

/-- C6: `generate_candidates` fails with `NotFound` when no Publication node
carries the requested key, and fails with `NoCommunity` when such a node
exists but every matching node lacks a `community_id`. -/
theorem generate_candidates_error_conditions
    (nodeSim : Neo4jStore.GraphState → ℤ → List Neo4jStore.SimEdge)
    (pkey : String) (k : ℕ) (s : Neo4jStore.GraphState) :
    ((∀ n ∈ s.nodes, ¬(n.label = Neo4jStore.Label.Publication ∧ n.key = pkey)) →
      Neo4jStore.generate_candidates nodeSim pkey k s = .error .NotFound)
    ∧ ((∃ n ∈ s.nodes, n.label = Neo4jStore.Label.Publication ∧ n.key = pkey) →
      (∀ n ∈ s.nodes, n.label = Neo4jStore.Label.Publication → n.key = pkey →
        n.community_id = none) →
      Neo4jStore.generate_candidates nodeSim pkey k s = .error .NoCommunity) := by
  constructor
  · intro habs
    have hfilter : s.nodes.filter
        (fun n => n.label == Neo4jStore.Label.Publication && n.key == pkey) = [] := by
      rw [List.filter_eq_nil_iff]
      intro n hn
      have := habs n hn
      simp only [Bool.and_eq_true, beq_iff_eq]
      tauto
    simp [Neo4jStore.generate_candidates, Neo4jStore.lookup_community, hfilter]
  · rintro ⟨n0, hn0mem, hn0lab, hn0key⟩ hnone
    cases hf : s.nodes.filter
        (fun n => n.label == Neo4jStore.Label.Publication && n.key == pkey) with
    | nil =>
      have : n0 ∈ s.nodes.filter
          (fun n => n.label == Neo4jStore.Label.Publication && n.key == pkey) :=
        List.mem_filter.mpr ⟨hn0mem, by simp [hn0lab, hn0key]⟩
      rw [hf] at this
      simp at this
    | cons m rest =>
      have hm : m ∈ s.nodes.filter
          (fun n => n.label == Neo4jStore.Label.Publication && n.key == pkey) := by
        rw [hf]
        exact List.mem_cons_self _ _
      have hm2 := List.mem_filter.mp hm
      have hmp : m.label = Neo4jStore.Label.Publication ∧ m.key = pkey := by
        have := hm2.2
        simpa [Bool.and_eq_true, beq_iff_eq] using this
      have hcomm : m.community_id = none := hnone m hm2.1 hmp.1 hmp.2
      simp [Neo4jStore.generate_candidates, Neo4jStore.lookup_community, hf, hcomm]

/-- C6 witness: both error branches at concrete states: an empty graph gives
NotFound, and a graph whose only Publication node for the key has no
community id gives NoCommunity. -/
theorem generate_candidates_error_conditions_witness :
    Neo4jStore.generate_candidates (fun _ _ => []) "A" 3 ⟨[], [], []⟩
      = .error .NotFound
    ∧ Neo4jStore.generate_candidates (fun _ _ => []) "A" 3
        ⟨[⟨"A", .Publication, none⟩], [], []⟩
      = .error .NoCommunity :=
  ⟨(generate_candidates_error_conditions (fun _ _ => []) "A" 3 ⟨[], [], []⟩).1
      (by simp),
   (generate_candidates_error_conditions (fun _ _ => []) "A" 3
      ⟨[⟨"A", .Publication, none⟩], [], []⟩).2
      ⟨⟨"A", .Publication, none⟩, by simp, rfl, rfl⟩
      (by
        rintro n hn - -
        simp at hn
        rw [hn])⟩

namespace Neo4jStore

/-- Bool-to-Prop reading of the node pattern `(p:Publication {key,
community_id})`. -/
theorem pubInCommunity_iff (s : GraphState) (key : String) (cid : ℤ) :
    pubInCommunity s key cid = true
      ↔ ∃ n ∈ s.nodes, n.key = key ∧ n.label = Label.Publication
          ∧ n.community_id = some cid := by
  simp [pubInCommunity, List.any_eq_true, Bool.and_eq_true, beq_iff_eq, and_assoc]

/-- The top-k SIMILAR query returns at most k rows, in descending score
order, and every row comes from a stored SIMILAR edge whose source is the
queried key, with both endpoints Publication nodes of the queried
community. -/
theorem top_k_query_spec (s : GraphState) (pkey : String) (cid : ℤ) (k : ℕ) :
    (top_k_query s pkey cid k).length ≤ k
    ∧ (top_k_query s pkey cid k).Pairwise (fun a b => b.2 ≤ a.2)
    ∧ ∀ r ∈ top_k_query s pkey cid k, ∃ e ∈ s.similar,
        e.src = pkey ∧ e.dst = r.1 ∧ e.score = r.2
        ∧ pubInCommunity s pkey cid = true
        ∧ pubInCommunity s r.1 cid = true := by
  haveI ht : IsTotal (String × ℚ) (fun a b => b.2 ≤ a.2) :=
    ⟨fun a b => le_total b.2 a.2⟩
  haveI htr : IsTrans (String × ℚ) (fun a b => b.2 ≤ a.2) :=
    ⟨fun a b c hab hbc => le_trans hbc hab⟩
  refine ⟨List.length_take_le _ _, ?_, ?_⟩
  · exact List.Pairwise.sublist (List.take_sublist _ _)
      (List.sorted_insertionSort (fun a b : String × ℚ => b.2 ≤ a.2) _)
  · intro r hr
    have hr2 := List.mem_of_mem_take hr
    have hr3 := (List.perm_insertionSort (fun a b : String × ℚ => b.2 ≤ a.2)
      _).subset hr2
    obtain ⟨e, he, hmap⟩ := List.mem_map.mp hr3
    obtain ⟨hee, hpred⟩ := List.mem_filter.mp he
    simp only [Bool.and_eq_true, beq_iff_eq] at hpred
    obtain ⟨⟨hsrc, hp1⟩, hp2⟩ := hpred
    subst hmap
    rw [hsrc] at hp1
    exact ⟨e, hee, hsrc, rfl, rfl, hp1, hp2⟩

end Neo4jStore

/-- C8: whenever `generate_candidates` succeeds, its rows are at most k, are
ordered by descending node-similarity score, and each row is backed by a
stored SIMILAR edge going out of pkey whose two endpoints are Publication
nodes in the community resolved for pkey. -/
theorem generate_candidates_topk_spec
    (nodeSim : Neo4jStore.GraphState → ℤ → List Neo4jStore.SimEdge)
    (pkey : String) (k : ℕ) (s s2 : Neo4jStore.GraphState)
    (rows : List (String × ℚ))
    (h : Neo4jStore.generate_candidates nodeSim pkey k s = .ok (s2, rows)) :
    rows.length ≤ k
    ∧ rows.Pairwise (fun a b => b.2 ≤ a.2)
    ∧ ∃ cid : ℤ, Neo4jStore.lookup_community s pkey = .ok (some cid)
        ∧ ∀ r ∈ rows, ∃ e ∈ s2.similar,
            e.src = pkey ∧ e.dst = r.1 ∧ e.score = r.2
            ∧ (∃ n ∈ s2.nodes, n.key = pkey ∧ n.label = Neo4jStore.Label.Publication
                ∧ n.community_id = some cid)
            ∧ (∃ n ∈ s2.nodes, n.key = r.1 ∧ n.label = Neo4jStore.Label.Publication
                ∧ n.community_id = some cid) := by
  rw [Neo4jStore.generate_candidates] at h
  cases hl : Neo4jStore.lookup_community s pkey with
  | error e =>
    rw [hl] at h
    simp at h
  | ok oc =>
    cases oc with
    | none =>
      rw [hl] at h
      simp at h
    | some cid =>
      rw [hl] at h
      simp only [Except.ok.injEq, Prod.mk.injEq] at h
      obtain ⟨hs2, hrows⟩ := h
      subst hs2
      subst hrows
      obtain ⟨h1, h2, h3⟩ := Neo4jStore.top_k_query_spec
        (Neo4jStore.ensure_similarity_subgraph nodeSim cid s) pkey cid k
      refine ⟨h1, h2, cid, rfl, ?_⟩
      intro r hr
      obtain ⟨e, hee, hsrc, hdst, hscore, hp1, hp2⟩ := h3 r hr
      exact ⟨e, hee, hsrc, hdst, hscore,
        (Neo4jStore.pubInCommunity_iff _ _ _).mp hp1,
        (Neo4jStore.pubInCommunity_iff _ _ _).mp hp2⟩

/-- C8 witness: a concrete successful run. On a one-publication graph with no
SIMILAR edges and a trivial external similarity function, the call succeeds
and the instantiated guarantees hold for its (empty) row list. -/
theorem generate_candidates_topk_spec_witness :
    ([] : List (String × ℚ)).length ≤ 5
    ∧ ([] : List (String × ℚ)).Pairwise (fun a b => b.2 ≤ a.2)
    ∧ ∃ cid : ℤ,
        Neo4jStore.lookup_community ⟨[⟨"A", .Publication, some 0⟩], [], []⟩ "A"
          = .ok (some cid)
        ∧ ∀ r ∈ ([] : List (String × ℚ)),
            ∃ e ∈ (⟨[⟨"A", .Publication, some 0⟩], [],
                ["sim_graph_0"]⟩ : Neo4jStore.GraphState).similar,
              e.src = "A" ∧ e.dst = r.1 ∧ e.score = r.2
              ∧ (∃ n ∈ (⟨[⟨"A", .Publication, some 0⟩], [],
                    ["sim_graph_0"]⟩ : Neo4jStore.GraphState).nodes,
                  n.key = "A" ∧ n.label = Neo4jStore.Label.Publication
                  ∧ n.community_id = some cid)
              ∧ (∃ n ∈ (⟨[⟨"A", .Publication, some 0⟩], [],
                    ["sim_graph_0"]⟩ : Neo4jStore.GraphState).nodes,
                  n.key = r.1 ∧ n.label = Neo4jStore.Label.Publication
                  ∧ n.community_id = some cid) :=
  generate_candidates_topk_spec (fun _ _ => []) "A" 5
    ⟨[⟨"A", .Publication, some 0⟩], [], []⟩
    ⟨[⟨"A", .Publication, some 0⟩], [], ["sim_graph_0"]⟩ [] (by rfl)

namespace Interface

/-- One entry of `data_recom` after the annotation loop of the recommend
route: the candidate key with the two similarity scores attached. -/
structure RecEntry where
  pkey : String
  content_similarity : Option ℝ
  node_similarity : ℚ

/-- Failures of the recommend route; each models a concrete Python
exception. -/
inductive RecError where
  /-- Models the IndexError at `retrieve_embeds(pkey)[0]` when the target key
  has no stored embedding (interface.py line 83). -/
  | NoEmbedding
  /-- Models the lookup `dict_cand[_pkey]` (interface.py line 105), which
  raises KeyError when the key is not a candidate; proved unreachable in the
  C5 theorem. -/
  | KeyError
  deriving DecidableEq

/-- Ordering relation realised by the final sort
`data_recom.sort(key=lambda x: -x["content_similarity"])`: descending by
content similarity. A non-finite score (`none`, NaN) is placed after finite
scores — CPython makes no ordering promise for NaN sort keys, and no theorem
below exercises that case. -/
def csGe : Option ℝ → Option ℝ → Prop
  | some x, some y => y ≤ x
  | some _, none => True
  | none, some _ => False
  | none, none => True

/-- Every score is csGe-related to itself. -/
theorem csGe_refl (x : Option ℝ) : csGe x x := by
  cases x
  · trivial
  · exact le_refl _

noncomputable instance : DecidableRel csGe := fun _ _ => Classical.propDecidable _

instance : IsTotal (Option ℝ) csGe :=
  ⟨by
    intro a b
    cases a <;> cases b <;> simp [csGe]
    exact le_total _ _⟩

instance : IsTrans (Option ℝ) csGe :=
  ⟨by
    intro a b c hab hbc
    cases a <;> cases b <;> cases c <;> simp_all [csGe]
    exact le_trans hbc hab⟩

noncomputable instance : DecidableRel (fun a b : RecEntry =>
    csGe a.content_similarity b.content_similarity) :=
  fun _ _ => Classical.propDecidable _

/-- The final stable sort of the recommend route (interface.py line 109):
the `list.sort` of Python is stable and ascending in the key
`-content_similarity`,
which is exactly a stable insertion sort under `csGe`. -/
noncomputable def sortEntries (l : List RecEntry) : List RecEntry :=
  List.insertionSort
    (fun a b => csGe a.content_similarity b.content_similarity) l

/-- The annotation loop plus the presence filter of the recommend route
(interface.py lines 99-108), fused: walk the rows that
`search_by_pkey(pkeys)` returned (represented by their keys, in the return
order of the store); a key without a stored embedding receives no scores and
is dropped by the later `filter(lambda x: "content_similarity" in x, ...)`;
a key with an embedding gets `content_similarity` from `cosine_sim` and
`node_similarity` from `dict_cand[_pkey]`, where a key absent from the
candidate dictionary would raise KeyError. The Python dictionaries are
association-list lookups here; the store produces duplicate-free key lists,
for which the first-binding and last-binding readings coincide. -/
noncomputable def buildEntries (target : List ℝ) (dict_cand : List (String × ℚ))
    (dict_embeds : List (String × List ℝ)) :
    List String → Except RecError (List RecEntry)
  | [] => .ok []
  | key :: rest =>
    match List.lookup key dict_embeds with
    | none => buildEntries target dict_cand dict_embeds rest
    | some emb =>
      match List.lookup key dict_cand with
      | none => .error .KeyError
      | some ns =>
        match buildEntries target dict_cand dict_embeds rest with
        | .error e => .error e
        | .ok tl => .ok (⟨key, cosine_sim target emb, ns⟩ :: tl)

/-- Core of the recommend route `get_recommendations_interface`
(interface.py lines 80-109), as a function of the store responses: `table`
is the embeds table, `res_cand` the rows of `generate_candidates` (candidate
key and node similarity), `res_recom` the keys of the rows that
`search_by_pkey(pkeys)` returned, in the return order of the store (that
query has no ORDER BY clause). Models line 83 (target embedding retrieval,
whose `[0]` raises IndexError when the key has no row), the dictionary
constructions, the annotation loop with its presence filter, and the final
descending stable sort. The display-only target-metadata retrieval of lines
81-82 is not modelled. -/
noncomputable def recommend_core (table : List (String × List ℝ)) (pkey : String)
    (res_cand : List (String × ℚ)) (res_recom : List String) :
    Except RecError (List RecEntry) :=
  match PostgresStore.retrieve_embeds_single table pkey with
  | [] => .error .NoEmbedding
  | trow :: _ =>
    let pkeys := res_cand.map (fun x => x.1)
    let res_embeds := PostgresStore.retrieve_embeds_list table pkeys
    match buildEntries trow.2 res_cand res_embeds res_recom with
    | .error e => .error e
    | .ok entries => .ok (sortEntries entries)

/-- A successful association-list lookup exhibits a member pair. -/
theorem lookup_mem {β : Type} (k : String) (l : List (String × β)) (v : β)
    (h : List.lookup k l = some v) : (k, v) ∈ l := by
  induction l with
  | nil => simp [List.lookup] at h
  | cons p t ih =>
    by_cases hk : (k == p.1) = true
    · have hkey : k = p.1 := by simpa using hk
      have : some p.2 = some v := by
        rw [← h]
        conv_rhs => rw [show p = (p.1, p.2) from rfl]
        simp [List.lookup, hk]
      subst hkey
      rw [Option.some.injEq] at this
      rw [← this]
      exact List.mem_cons_self _ _
    · have ht : List.lookup k t = some v := by
        rw [← h]
        conv_rhs => rw [show p = (p.1, p.2) from rfl]
        simp [List.lookup, hk]
      exact List.mem_cons_of_mem _ (ih ht)

/-- A key appearing in the key column of an association list has a
successful lookup. -/
theorem lookup_isSome_of_mem_keys {β : Type} (k : String)
    (l : List (String × β)) (h : k ∈ l.map (fun x => x.1)) :
    ∃ v, List.lookup k l = some v := by
  induction l with
  | nil => simp at h
  | cons p t ih =>
    by_cases hk : (k == p.1) = true
    · refine ⟨p.2, ?_⟩
      conv_lhs => rw [show p = (p.1, p.2) from rfl]
      simp [List.lookup, hk]
    · have h2 : k = p.1 ∨ k ∈ t.map (fun x => x.1) := by
        simpa using List.mem_cons.mp h
      have hmem : k ∈ t.map (fun x => x.1) := by
        rcases h2 with h1 | h1
        · exact absurd (by simp [h1]) hk
        · exact h1
      obtain ⟨v, hv⟩ := ih hmem
      refine ⟨v, ?_⟩
      conv_lhs => rw [show p = (p.1, p.2) from rfl]
      simp [List.lookup, hk, hv]

/-- The annotation loop never raises KeyError as long as every key with a
stored embedding row is a candidate key, and every produced entry is a
visited key with its embedding row and its candidate score. -/
theorem buildEntries_ok (target : List ℝ) (cand : List (String × ℚ))
    (embeds : List (String × List ℝ)) (recom : List String)
    (hcov : ∀ key v, List.lookup key embeds = some v →
      key ∈ cand.map (fun x => x.1)) :
    ∃ l, buildEntries target cand embeds recom = .ok l
      ∧ ∀ e ∈ l, e.pkey ∈ recom
          ∧ (∃ v, List.lookup e.pkey embeds = some v
              ∧ e.content_similarity = cosine_sim target v)
          ∧ (∃ ns, List.lookup e.pkey cand = some ns
              ∧ e.node_similarity = ns) := by
  induction recom with
  | nil => exact ⟨[], rfl, by simp⟩
  | cons key rest ih =>
    obtain ⟨l, hok, hfacts⟩ := ih
    cases hemb : List.lookup key embeds with
    | none =>
      refine ⟨l, ?_, ?_⟩
      · rw [buildEntries, hemb, hok]
      · intro e he
        obtain ⟨h1, h2, h3⟩ := hfacts e he
        exact ⟨List.mem_cons_of_mem _ h1, h2, h3⟩
    | some emb =>
      have hkeys := hcov key emb hemb
      obtain ⟨ns, hns⟩ := lookup_isSome_of_mem_keys key cand hkeys
      refine ⟨⟨key, cosine_sim target emb, ns⟩ :: l, ?_, ?_⟩
      · rw [buildEntries, hemb, hns, hok]
      · intro e he
        rcases List.mem_cons.mp he with rfl | he2
        · exact ⟨List.mem_cons_self _ _, ⟨emb, hemb, rfl⟩, ⟨ns, hns, rfl⟩⟩
        · obtain ⟨h1, h2, h3⟩ := hfacts e he2
          exact ⟨List.mem_cons_of_mem _ h1, h2, h3⟩

/-- A row of the `WHERE pkey IN pkeys` result is a row of the table whose key
is one of the requested keys. -/
theorem res_embeds_row_mem (table : List (String × List ℝ))
    (pkeys : List String) (key : String) (v : List ℝ)
    (h : (key, v) ∈ PostgresStore.retrieve_embeds_list table pkeys) :
    (key, v) ∈ table ∧ key ∈ pkeys := by
  rw [PostgresStore.retrieve_embeds_list] at h
  by_cases hp : pkeys = []
  · rw [if_pos hp] at h
    simp at h
  · rw [if_neg hp, PostgresStore.sortByPkey] at h
    have h2 := (List.perm_insertionSort _ _).subset h
    have h3 := List.mem_filter.mp h2
    refine ⟨h3.1, ?_⟩
    simpa using h3.2

/-- Cosine similarity of the one-dimensional unit vector with itself is 1. -/
theorem cosine_sim_one_one : cosine_sim [(1 : ℝ)] [(1 : ℝ)] = some 1 := by
  have hd : dot [(1 : ℝ)] [(1 : ℝ)] = 1 := by norm_num [dot]
  have hn : npNorm [(1 : ℝ)] = 1 := by rw [npNorm, hd, Real.sqrt_one]
  rw [cosine_sim, if_neg (by rw [hn]; norm_num), hn, hd]
  norm_num

/-- An insertion sort whose relation holds between every two elements of the
list keeps the list unchanged — this is the stability of the Python sort in
the all-ties case. -/
theorem insertionSort_of_total_rel {α : Type} (r : α → α → Prop)
    [DecidableRel r] (l : List α) (h : ∀ a ∈ l, ∀ b ∈ l, r a b) :
    List.insertionSort r l = l := by
  induction l with
  | nil => rfl
  | cons x t ih =>
    have ht : List.insertionSort r t = t :=
      ih (fun a ha b hb =>
        h a (List.mem_cons_of_mem _ ha) b (List.mem_cons_of_mem _ hb))
    rw [List.insertionSort, ht]
    cases t with
    | nil => rfl
    | cons y ts =>
      rw [List.orderedInsert, if_pos (h x (List.mem_cons_self _ _) y
        (List.mem_cons_of_mem _ (List.mem_cons_self _ _)))]

end Interface

/-- C5: when the target key has no stored vector the recommend route fails
(the `[0]` subscript on the empty result, modelled `NoEmbedding`); every
returned entry corresponds to a returned store row whose key has a stored
vector and is a candidate — so a candidate lacking a vector is silently
dropped; and whenever the target vector exists the route succeeds (the
KeyError path is unreachable), in particular returning the empty list without
error when there are no candidates. -/
theorem recommend_missing_vector_handling
    (table : List (String × List ℝ)) (pkey : String)
    (res_cand : List (String × ℚ)) (res_recom : List String) :
    (PostgresStore.retrieve_embeds_single table pkey = [] →
      Interface.recommend_core table pkey res_cand res_recom
        = .error .NoEmbedding)
    ∧ (∀ l, Interface.recommend_core table pkey res_cand res_recom = .ok l →
        ∀ e ∈ l, e.pkey ∈ res_recom
          ∧ (∃ v, (e.pkey, v) ∈ table)
          ∧ e.pkey ∈ res_cand.map (fun x => x.1))
    ∧ (PostgresStore.retrieve_embeds_single table pkey ≠ [] →
        ∃ l, Interface.recommend_core table pkey res_cand res_recom = .ok l)
    ∧ (PostgresStore.retrieve_embeds_single table pkey ≠ [] →
        Interface.recommend_core table pkey [] [] = .ok []) := by
  have hcov : ∀ key v, List.lookup key
      (PostgresStore.retrieve_embeds_list table (res_cand.map (fun x => x.1)))
        = some v → key ∈ res_cand.map (fun x => x.1) := by
    intro key v hlk
    exact (Interface.res_embeds_row_mem table _ key v
      (Interface.lookup_mem key _ v hlk)).2
  refine ⟨?_, ?_, ?_, ?_⟩
  · intro h
    simp only [Interface.recommend_core, h]
  · intro l hl e he
    cases hre : PostgresStore.retrieve_embeds_single table pkey with
    | nil =>
      simp only [Interface.recommend_core, hre] at hl
      exact absurd hl (by simp)
    | cons trow rest2 =>
      simp only [Interface.recommend_core, hre] at hl
      obtain ⟨l0, hok0, hfacts0⟩ := Interface.buildEntries_ok trow.2 res_cand
        (PostgresStore.retrieve_embeds_list table (res_cand.map (fun x => x.1)))
        res_recom hcov
      rw [hok0] at hl
      simp only [Except.ok.injEq] at hl
      subst hl
      have he2 : e ∈ l0 :=
        (List.perm_insertionSort _ _).subset he
      obtain ⟨h1, ⟨v, hlk, -⟩, -⟩ := hfacts0 e he2
      have hrow := Interface.res_embeds_row_mem table _ e.pkey v
        (Interface.lookup_mem e.pkey _ v hlk)
      exact ⟨h1, ⟨v, hrow.1⟩, hrow.2⟩
  · intro hne
    cases hre : PostgresStore.retrieve_embeds_single table pkey with
    | nil => exact absurd hre hne
    | cons trow rest2 =>
      obtain ⟨l0, hok0, -⟩ := Interface.buildEntries_ok trow.2 res_cand
        (PostgresStore.retrieve_embeds_list table (res_cand.map (fun x => x.1)))
        res_recom hcov
      refine ⟨Interface.sortEntries l0, ?_⟩
      simp only [Interface.recommend_core, hre, hok0]
  · intro hne
    cases hre : PostgresStore.retrieve_embeds_single table pkey with
    | nil => exact absurd hre hne
    | cons trow rest2 =>
      simp only [Interface.recommend_core, hre]
      rfl

/-- C5 witness: with an empty table the route fails with NoEmbedding; with
the target vector stored it succeeds even though candidate `a` has no stored
vector and row key `b` is not a candidate. -/
theorem recommend_missing_vector_handling_witness :
    Interface.recommend_core [] "t" [] [] = .error .NoEmbedding
    ∧ ∃ l, Interface.recommend_core [("t", [(1 : ℝ)])] "t" [("a", 1/2)]
        ["a", "b"] = .ok l :=
  ⟨(recommend_missing_vector_handling [] "t" [] []).1 rfl,
   (recommend_missing_vector_handling [("t", [(1 : ℝ)])] "t" [("a", 1/2)]
      ["a", "b"]).2.2.1
      (by simp [PostgresStore.retrieve_embeds_single])⟩

/-- C3, counterexample: three stored vectors all equal to [1] make all
content similarities tie at 1; the store returns the candidate rows in the
order b, a; the stable sort keeps that order, so the result lists b before a
even though a precedes b in key order (last conjunct) — the tie is broken by
the return order of the store, not by ascending candidate key. -/
theorem recommend_tiebreak_counterexample :
    Interface.recommend_core
        [("t", [(1 : ℝ)]), ("a", [(1 : ℝ)]), ("b", [(1 : ℝ)])] "t"
        [("a", 7/10), ("b", 3/10)] ["b", "a"]
      = .ok [⟨"b", some 1, 3/10⟩, ⟨"a", some 1, 7/10⟩]
    ∧ PostgresStore.keyLtB "a".data "b".data = true := by
  refine ⟨?_, rfl⟩
  rw [show Interface.recommend_core
        [("t", [(1 : ℝ)]), ("a", [(1 : ℝ)]), ("b", [(1 : ℝ)])] "t"
        [("a", 7/10), ("b", 3/10)] ["b", "a"]
      = Except.ok (Interface.sortEntries
          [⟨"b", Interface.cosine_sim [(1 : ℝ)] [(1 : ℝ)], 3/10⟩,
           ⟨"a", Interface.cosine_sim [(1 : ℝ)] [(1 : ℝ)], 7/10⟩]) from rfl]
  rw [Interface.cosine_sim_one_one]
  rw [Interface.sortEntries, Interface.insertionSort_of_total_rel]
  intro a ha b hb
  have ha2 : a = ⟨"b", some 1, 3/10⟩ ∨ a = ⟨"a", some 1, 7/10⟩ := by
    simpa using ha
  have hb2 : b = ⟨"b", some 1, 3/10⟩ ∨ b = ⟨"a", some 1, 7/10⟩ := by
    simpa using hb
  rcases ha2 with rfl | rfl <;> rcases hb2 with rfl | rfl <;>
    exact le_refl (1 : ℝ)

/-- C3, amended: the returned list is sorted by descending content
similarity, and the sort is stable, so equal scores keep the order in which
the store returned the candidate rows — which is not necessarily ascending
key order; the scores and ordering are a function of the store responses, so
the call is deterministic only relative to the row order the store chose. -/
theorem recommend_sorted_desc_stable :
    (∀ (table : List (String × List ℝ)) (pkey : String)
      (res_cand : List (String × ℚ)) (res_recom : List String)
      (l : List Interface.RecEntry),
      Interface.recommend_core table pkey res_cand res_recom = .ok l →
      l.Pairwise (fun a b =>
        Interface.csGe a.content_similarity b.content_similarity))
    ∧ (∀ l : List Interface.RecEntry,
        (∀ a ∈ l, ∀ b ∈ l, a.content_similarity = b.content_similarity) →
        Interface.sortEntries l = l) := by
  constructor
  · intro table pkey res_cand res_recom l hl
    haveI : IsTotal Interface.RecEntry (fun a b =>
        Interface.csGe a.content_similarity b.content_similarity) :=
      ⟨fun a b => IsTotal.total (r := Interface.csGe) _ _⟩
    haveI : IsTrans Interface.RecEntry (fun a b =>
        Interface.csGe a.content_similarity b.content_similarity) :=
      ⟨fun _ _ _ h1 h2 => IsTrans.trans (r := Interface.csGe) _ _ _ h1 h2⟩
    cases hre : PostgresStore.retrieve_embeds_single table pkey with
    | nil =>
      simp only [Interface.recommend_core, hre] at hl
      exact absurd hl (by simp)
    | cons trow rest2 =>
      simp only [Interface.recommend_core, hre] at hl
      cases hb : Interface.buildEntries trow.2 res_cand
          (PostgresStore.retrieve_embeds_list table
            (res_cand.map (fun x => x.1))) res_recom with
      | error e =>
        rw [hb] at hl
        exact absurd hl (by simp)
      | ok entries =>
        rw [hb] at hl
        simp only [Except.ok.injEq] at hl
        subst hl
        exact List.sorted_insertionSort _ _
  · intro l hEq
    apply Interface.insertionSort_of_total_rel
    intro a ha b hb
    show Interface.csGe a.content_similarity b.content_similarity
    rw [hEq a ha b hb]
    exact Interface.csGe_refl _

/-- C3 amended-theorem witness: the sortedness guarantee at a concrete
successful call, and stability at a concrete single-entry list. -/
theorem recommend_sorted_desc_stable_witness :
    ([] : List Interface.RecEntry).Pairwise (fun a b =>
      Interface.csGe a.content_similarity b.content_similarity)
    ∧ Interface.sortEntries [⟨"x", some 1, 0⟩] = [⟨"x", some 1, 0⟩] :=
  ⟨recommend_sorted_desc_stable.1 [("t", [(1 : ℝ)])] "t" [] [] [] rfl,
   recommend_sorted_desc_stable.2 [⟨"x", some 1, 0⟩] (by
     intro a ha b hb
     have ha2 : a = ⟨"x", some 1, 0⟩ := by simpa using ha
     have hb2 : b = ⟨"x", some 1, 0⟩ := by simpa using hb
     rw [ha2, hb2])⟩

namespace Neo4jStore

/-- The dynamic type of the `page` argument as the Python code sees it:
either an int (bools included, being Python ints) or any non-int value. -/
inductive PyPage where
  | int (n : ℤ)
  | notInt
  deriving DecidableEq

/-- The paging of the query that `search_by_title` would run: the value of
the interpolated SKIP clause when present, and the LIMIT parameter. -/
structure TitlePlan where
  skipClause : Option ℤ
  limit : ℤ
  deriving DecidableEq

/-- Models `Neo4jStore.search_by_title` (neo4j_store.py lines 82-128) up to
the query that reaches the database: the two guards run before any
`session.run`, raising RuntimeError (modelled as the error strings) for a
non-integer or non-positive page; otherwise the paging query is built with
`SKIP (page - 1) * limit` exactly when `page > 1` and no SKIP clause when
`page = 1`. The search text and the result serialisation do not affect
paging and are not modelled. -/
def search_by_title (page : PyPage) (limit : ℤ) : Except String TitlePlan :=
  match page with
  | .notInt => .error "\"page\" is not an integer."
  | .int p =>
    if p ≤ 0 then .error "\"page\" should be a positive integer."
    else .ok { skipClause := if 1 < p then some ((p - 1) * limit) else none,
               limit := limit }

end Neo4jStore

/-- C10: the page guards fire before any query executes for a non-integer or
non-positive page, and a valid page skips exactly (page - 1) * limit rows,
the SKIP clause being omitted exactly when page = 1. -/
theorem search_by_title_page_spec (limit : ℤ) :
    (Neo4jStore.search_by_title .notInt limit
      = .error "\"page\" is not an integer.")
    ∧ (∀ n : ℤ, n ≤ 0 → Neo4jStore.search_by_title (.int n) limit
        = .error "\"page\" should be a positive integer.")
    ∧ (∀ n : ℤ, 0 < n → Neo4jStore.search_by_title (.int n) limit
        = .ok ⟨if 1 < n then some ((n - 1) * limit) else none, limit⟩)
    ∧ Neo4jStore.search_by_title (.int 1) limit = .ok ⟨none, limit⟩ := by
  refine ⟨rfl, ?_, ?_, ?_⟩
  · intro n hn
    rw [Neo4jStore.search_by_title, if_pos hn]
  · intro n hn
    rw [Neo4jStore.search_by_title, if_neg (by omega)]
  · rw [Neo4jStore.search_by_title, if_neg (by omega), if_neg (by omega)]

/-- C10 witness: page 0 is rejected; page 3 with limit 10 skips 20 rows. -/
theorem search_by_title_page_spec_witness :
    Neo4jStore.search_by_title (.int 0) 10
      = .error "\"page\" should be a positive integer."
    ∧ Neo4jStore.search_by_title (.int 3) 10 = .ok ⟨some 20, 10⟩ :=
  ⟨(search_by_title_page_spec 10).2.1 0 (by norm_num),
   by
     have h := (search_by_title_page_spec 10).2.2.1 3 (by norm_num)
     rw [h, if_pos (by norm_num)]
     norm_num⟩

/-- C7: the code performs no dimension check on insert. The `embeds` table
declares `embed FLOAT8[512]` (see `declared_embed_dim`), but PostgreSQL does
not enforce declared array dimensions and `insert_pkeys_embeds` never checks
the vector length, so storing a length-1 vector succeeds and the vector is
returned by a subsequent read — no DimensionMismatch failure exists. -/
theorem wrong_dimension_insert_succeeds :
    ([(5 : ℝ)] : List ℝ).length ≠ PostgresStore.declared_embed_dim
    ∧ PostgresStore.retrieve_embeds_list
        (PostgresStore.insert_pkeys_embeds [] ["k"] [[(5 : ℝ)]]) ["k"]
      = [("k", [(5 : ℝ)])] := by
  exact ⟨by simp [PostgresStore.declared_embed_dim], rfl⟩
